import Mathlib

/-!
Shallow embedding of the catalog persistence layer of the repository
(`app/infra.go`): SQLite-backed item and category repositories, the
image file store, and the add-item coordinator, together with proofs
about the claims of the specification.

Modelling conventions:
* The SQLite database is a pure value: a list of category rows plus an
  AUTOINCREMENT counter, and a list of item rows plus its counter.
  AUTOINCREMENT assigns `nextId` and bumps it, so identities are never
  reused (SQLite AUTOINCREMENT semantics).
* Go slices are `GoSlice α := Option (List α)`: `none` is the nil slice
  (the zero value of `var items []*Item`, which serializes to JSON
  `null`), `some xs` a non-nil slice with elements `xs`.  `append`
  on a nil slice allocates a non-nil one, as in Go.
* Fallible operations return `Except GoErr _`; the distinct error
  classes of the source (sentinel errors and wrapped engine errors)
  become constructors of `GoErr`.
* SQL `LIKE` is embedded with SQLite's default semantics: `%` matches
  any span, `_` any single character, and ordinary characters compare
  ASCII-case-insensitively.
-/

namespace Mercari

/-- Error classes of `infra.go`: the sentinel errors `errItemNotFound`,
`errCategoryNotFound`, and the wrapped engine/IO failures. -/
inductive GoErr where
  | itemNotFound
  | categoryNotFound
  | failedToInsertCategory
  | failedToWriteImage
  | invalidRequest
deriving DecidableEq, Repr

/-- Row of the `categories` table: `id INTEGER PK AUTOINCREMENT, name TEXT UNIQUE`. -/
structure Category where
  id : Nat
  name : String
deriving DecidableEq, Repr

/-- Row of the `items` table: `id INTEGER PK AUTOINCREMENT, name, category_id, image_name`. -/
structure ItemRow where
  id : Nat
  name : String
  categoryId : Nat
  imageName : String
deriving DecidableEq, Repr

/-- The Go `Item` struct of `infra.go` (`ID`, `Name`, `Category`,
`CategoryID`, `ImageName`); `Category` is the denormalized category
name filled on reads. -/
structure Item where
  ID : Nat
  Name : String
  Category : String
  CategoryID : Nat
  ImageName : String
deriving DecidableEq, Repr

/-- The relational store: both tables plus their AUTOINCREMENT
counters (next identity to assign; all assigned identities are below
the counter). -/
structure DB where
  categories : List Category
  catNextId : Nat
  items : List ItemRow
  itemNextId : Nat
deriving DecidableEq, Repr

/-- A Go slice value: `none` is the nil slice, `some xs` a non-nil
slice holding `xs`. -/
abbrev GoSlice (α : Type) := Option (List α)

/-- Go `append`: appending to a nil slice allocates a non-nil slice. -/
def goAppend {α : Type} (s : GoSlice α) (x : α) : GoSlice α :=
  match s with
  | none => some [x]
  | some xs => some (xs ++ [x])

/-- The elements of a Go slice (`len` and iteration see nil as empty). -/
def goToList {α : Type} : GoSlice α → List α
  | none => []
  | some xs => xs

/-- Go `len` of a slice. -/
def goLength {α : Type} (s : GoSlice α) : Nat := (goToList s).length

/-- Whether a Go slice is the nil slice (`items == nil`; a nil slice
serializes to JSON `null`). -/
def goIsNil {α : Type} : GoSlice α → Bool
  | none => true
  | some _ => false

/-- The `var items []*T; for rows { items = append(items, row) }` loop
of `List`/`SearchByKeyword`: fold Go `append` over the result rows
starting from the nil slice. -/
def goCollect {α : Type} (rows : List α) : GoSlice α :=
  rows.foldl goAppend none

theorem goToList_foldl_goAppend {α : Type} (rows : List α) (acc : GoSlice α) :
    goToList (rows.foldl goAppend acc) = goToList acc ++ rows := by
  induction rows generalizing acc with
  | nil => simp
  | cons r rs ih =>
      rw [List.foldl_cons, ih]
      cases acc <;> simp [goAppend, goToList]

theorem goToList_goCollect {α : Type} (rows : List α) :
    goToList (goCollect rows) = rows := by
  simpa [goCollect, goToList] using goToList_foldl_goAppend rows none

theorem goCollect_nil_iff {α : Type} (rows : List α) :
    goCollect rows = (none : GoSlice α) ↔ rows = [] := by
  constructor
  · intro h
    have := goToList_goCollect rows
    rw [h] at this
    simpa [goToList] using this.symm
  · intro h; subst h; rfl

/-! ## Category repository (`categoryRepository` in `infra.go`) -/

/-- `SELECT id FROM categories WHERE name = ?` followed by `Scan`:
the first matching row's id, or `sql.ErrNoRows` (here `none`). -/
def catLookup (cats : List Category) (name : String) : Option Nat :=
  (cats.find? (fun c => c.name == name)).map (fun c => c.id)

/-- `INSERT INTO categories (name) VALUES (?)` against the schema
`name TEXT UNIQUE NOT NULL` with `id INTEGER PK AUTOINCREMENT`: the
UNIQUE constraint rejects a duplicate name (the statement fails and
the table is unchanged); otherwise the row is appended with the next
never-reused identity, which `LastInsertId` reports. -/
def catInsert (db : DB) (name : String) : Except Unit (Nat × DB) :=
  if db.categories.any (fun c => c.name == name) then
    .error ()
  else
    .ok (db.catNextId,
      { db with
        categories := db.categories ++ [⟨db.catNextId, name⟩],
        catNextId := db.catNextId + 1 })

/-- `categoryRepository.GetOrCreate`, with the two database reads/writes
taken against explicit snapshots so that interleavings with other
writers are expressible: `dbAtLookup` is the state the `SELECT` runs
against, `dbAtInsert` the state the `INSERT` runs against (the current
state, which the call may update).  The sequential call is the special
case `dbAtLookup = dbAtInsert`.  Faithful to the source: on a lookup
hit return the id; on `sql.ErrNoRows` attempt the insert, and if the
insert fails (uniqueness-constraint violation) propagate the wrapped
error `failed to insert category` without re-reading. -/
def getOrCreateRaced (dbAtLookup dbAtInsert : DB) (name : String) :
    Except GoErr Nat × DB :=
  match catLookup dbAtLookup.categories name with
  | some id => (.ok id, dbAtInsert)
  | none =>
      match catInsert dbAtInsert name with
      | .error _ => (.error .failedToInsertCategory, dbAtInsert)
      | .ok (id, db') => (.ok id, db')

/-- Sequential `GetOrCreate`: both queries run against the same state. -/
def getOrCreate (db : DB) (name : String) : Except GoErr Nat × DB :=
  getOrCreateRaced db db name

/-- `categoryRepository.GetByID`: `SELECT id, name FROM categories
WHERE id = ?`; `sql.ErrNoRows` becomes `errCategoryNotFound`. -/
def getByID (db : DB) (id : Nat) : Except GoErr Category :=
  match db.categories.find? (fun c => c.id == id) with
  | some c => .ok c
  | none => .error .categoryNotFound

/-- The `name TEXT UNIQUE` invariant: no two category rows share a name. -/
def uniqNames (db : DB) : Prop :=
  db.categories.Pairwise (fun a b => a.name ≠ b.name)

/-- Number of category rows carrying a given name. -/
def countName (db : DB) (name : String) : Nat :=
  (db.categories.filter (fun c => c.name == name)).length

theorem catInsert_preserves_uniqNames (db : DB) (name : String)
    (h : uniqNames db) :
    ∀ id db', catInsert db name = .ok (id, db') → uniqNames db' := by
  intro id db' hok
  unfold catInsert at hok
  by_cases hmem : db.categories.any (fun c => c.name == name)
  · simp [hmem] at hok
  · simp [hmem] at hok
    obtain ⟨-, hdb'⟩ := hok
    subst hdb'
    unfold uniqNames at h ⊢
    rw [List.pairwise_append]
    refine ⟨h, List.pairwise_singleton _ _, ?_⟩
    intro a ha b hb
    simp only [List.mem_singleton] at hb
    subst hb
    intro hEq
    exact hmem (by rw [List.any_eq_true]; exact ⟨a, ha, by simp [hEq]⟩)

theorem getOrCreateRaced_preserves_uniqNames
    (snap cur : DB) (name : String) (h : uniqNames cur) :
    uniqNames (getOrCreateRaced snap cur name).2 := by
  unfold getOrCreateRaced
  cases hl : catLookup snap.categories name with
  | some id => simpa using h
  | none =>
      cases hi : catInsert cur name with
      | error e => simpa using h
      | ok p =>
          obtain ⟨id, db'⟩ := p
          simpa using catInsert_preserves_uniqNames cur name h id db' hi

/-- The effect on the shared database of an arbitrary interleaved run
of `GetOrCreate` calls: writes serialize, so each call applies
`getOrCreateRaced` to the current state, while its lookup may have run
against an arbitrary (stale) snapshot carried with the call. -/
def runGetOrCreates (db : DB) : List (DB × String) → DB
  | [] => db
  | (snap, name) :: rest =>
      runGetOrCreates (getOrCreateRaced snap db name).2 rest

theorem pairwise_filter_name_le_one (n : String) (l : List Category)
    (h : l.Pairwise (fun a b => a.name ≠ b.name)) :
    (l.filter (fun c => c.name == n)).length ≤ 1 := by
  induction h with
  | nil => simp
  | @cons c cs hc hcs ih =>
      by_cases hn : c.name = n
      · have hnil : cs.filter (fun x => x.name == n) = [] := by
          rw [List.filter_eq_nil_iff]
          intro a ha
          have hne := hc a ha
          rw [hn] at hne
          simp only [ne_eq] at hne
          simp only [Bool.not_eq_true, beq_eq_false_iff_ne, ne_eq]
          intro hEq
          exact hne hEq.symm
        simp [hn, hnil]
      · have hfalse : (c.name == n) = false := by simp [hn]
        simp only [List.filter_cons, hfalse]
        simpa using ih

theorem uniqNames_countName_le_one (db : DB) (h : uniqNames db) (n : String) :
    countName db n ≤ 1 :=
  pairwise_filter_name_le_one n db.categories h

/-! ## SQLite `LIKE` and Go substring containment -/

/-- All suffixes of a character list, longest first, ending with `[]`. -/
def tailsOf : List Char → List (List Char)
  | [] => [[]]
  | c :: cs => (c :: cs) :: tailsOf cs

/-- SQLite's default `LIKE` semantics: `%` matches any span of
characters (including the empty one), `_` matches exactly one
character, and any other pattern character matches a single text
character up to ASCII case folding.  A `%` is resolved by trying the
rest of the pattern at every suffix of the text. -/
def likeMatch : List Char → List Char → Bool
  | [], s => s.isEmpty
  | p :: ps, s =>
      if p = '%' then
        (tailsOf s).any (fun t => likeMatch ps t)
      else
        match s with
        | [] => false
        | c :: cs =>
            (if p = '_' then true else p.toLower == c.toLower) && likeMatch ps cs

/-- The pattern `"%" + keyword + "%"` built by `SearchByKeyword`. -/
def mkLikePat (keyword : String) : List Char :=
  '%' :: (keyword.data ++ ['%'])

/-- Exact prefix test on character lists (Go string comparison is
byte-exact). -/
def isPrefixChars : List Char → List Char → Bool
  | [], _ => true
  | _ :: _, [] => false
  | p :: ps, c :: cs => (p == c) && isPrefixChars ps cs

/-- Go `strings.Contains s sub`: `sub` occurs contiguously in `s`
(case-sensitively) — the plain-language "contains as a substring". -/
def goContains (s sub : String) : Bool :=
  (tailsOf s.data).any (fun t => isPrefixChars sub.data t)

/-- ASCII-case-insensitive prefix test. -/
def isPrefixCI : List Char → List Char → Bool
  | [], _ => true
  | _ :: _, [] => false
  | p :: ps, c :: cs => (p.toLower == c.toLower) && isPrefixCI ps cs

/-- ASCII-case-insensitive substring containment. -/
def containsCI (s sub : String) : Bool :=
  (tailsOf s.data).any (fun t => isPrefixCI sub.data t)

/-- A keyword free of the `LIKE` metacharacters `%` and `_`. -/
def likeLiteral (keyword : String) : Prop :=
  '%' ∉ keyword.data ∧ '_' ∉ keyword.data

instance (keyword : String) : Decidable (likeLiteral keyword) := by
  unfold likeLiteral; infer_instance

theorem tailsOf_ne_nil (s : List Char) : tailsOf s ≠ [] := by
  cases s <;> simp [tailsOf]

theorem nil_mem_tailsOf (s : List Char) : [] ∈ tailsOf s := by
  induction s with
  | nil => simp [tailsOf]
  | cons c cs ih => simp [tailsOf, ih]

/-- `LIKE '%'` accepts every text. -/
theorem likeMatch_percent_nil (s : List Char) :
    likeMatch ['%'] s = true := by
  simp only [likeMatch, reduceIte, List.any_eq_true]
  exact ⟨[], nil_mem_tailsOf s, by simp⟩

/-- `LIKE '%%'` (the pattern for the empty keyword) accepts every text. -/
theorem likeMatch_empty_keyword (s : List Char) :
    likeMatch (mkLikePat "") s = true := by
  have h : mkLikePat "" = ['%', '%'] := rfl
  rw [h]
  have h2 : likeMatch ['%', '%'] s = (tailsOf s).any (fun t => likeMatch ['%'] t) := by
    simp only [likeMatch, reduceIte]
  rw [h2, List.any_eq_true]
  refine ⟨s, ?_, likeMatch_percent_nil s⟩
  cases s <;> simp [tailsOf]

/-- Over a metacharacter-free pattern tail `lit ++ ['%']`, `LIKE`
is exactly the case-insensitive prefix test for `lit`. -/
theorem likeMatch_literal_prefix (lit : List Char)
    (hp : '%' ∉ lit) (hu : '_' ∉ lit) (s : List Char) :
    likeMatch (lit ++ ['%']) s = isPrefixCI lit s := by
  induction lit generalizing s with
  | nil => simp [likeMatch_percent_nil, isPrefixCI]
  | cons c cs ih =>
      have hcp : c ≠ '%' := by intro h; exact hp (by simp [h])
      have hcu : c ≠ '_' := by intro h; exact hu (by simp [h])
      have hp' : '%' ∉ cs := fun h => hp (List.mem_cons_of_mem _ h)
      have hu' : '_' ∉ cs := fun h => hu (List.mem_cons_of_mem _ h)
      cases s with
      | nil =>
          rw [List.cons_append]
          simp only [likeMatch, if_neg hcp]
          simp [isPrefixCI]
      | cons x xs =>
          rw [List.cons_append]
          simp only [likeMatch, if_neg hcp, if_neg hcu]
          rw [ih hp' hu', isPrefixCI]

theorem list_any_congr {α : Type} {f g : α → Bool} :
    ∀ (l : List α), (∀ x ∈ l, f x = g x) → l.any f = l.any g
  | [], _ => rfl
  | x :: xs, h => by
      simp only [List.any_cons]
      rw [h x (List.mem_cons_self x xs),
        list_any_congr xs (fun y hy => h y (List.mem_cons_of_mem x hy))]

/-- Over a metacharacter-free keyword, the full search pattern
`%keyword%` is exactly case-insensitive substring containment. -/
theorem likeMatch_literal_contains (keyword : String) (h : likeLiteral keyword)
    (s : String) :
    likeMatch (mkLikePat keyword) s.data = containsCI s keyword := by
  obtain ⟨hp, hu⟩ := h
  have h2 : likeMatch (mkLikePat keyword) s.data
      = (tailsOf s.data).any (fun t => likeMatch (keyword.data ++ ['%']) t) := by
    rw [mkLikePat]
    simp only [likeMatch, reduceIte]
  rw [h2]
  unfold containsCI
  exact list_any_congr _ (fun t _ => likeMatch_literal_prefix keyword.data hp hu t)

/-! ## Item repository (`itemRepository` in `infra.go`) -/

/-- The read-side view built by the scan loop: an item row with the
category name denormalized from the joined category row. -/
def mkView (r : ItemRow) (c : Category) : Item :=
  { ID := r.id, Name := r.name, Category := c.name,
    CategoryID := r.categoryId, ImageName := r.imageName }

/-- The `FROM items i JOIN categories c ON i.category_id = c.id`
result set used by `List`, `Select` and `SearchByKeyword`: SQLite
scans items in rowid order and pairs each with every matching
category row (with the `id` primary key there is at most one). -/
def joinRows (db : DB) : List Item :=
  db.items.flatMap (fun r =>
    (db.categories.filter (fun c => c.id == r.categoryId)).map (mkView r))

/-- `itemRepository.List`: runs the join query and folds the rows into
a `[]*Item` that starts out as the nil slice (`var items []*Item`).
The error path only fires on engine failure, which the pure model does
not inject, so the result is always `ok`. -/
def itemList (db : DB) : Except GoErr (GoSlice Item) :=
  .ok (goCollect (joinRows db))

/-- `itemRepository.Select`: the same join restricted by
`WHERE i.id = ?`; `QueryRow.Scan` yields the first row or
`sql.ErrNoRows`, which becomes `errItemNotFound`. -/
def itemSelect (db : DB) (id : Nat) : Except GoErr Item :=
  match (joinRows db).find? (fun it => it.ID == id) with
  | some it => .ok it
  | none => .error .itemNotFound

/-- `itemRepository.SearchByKeyword`: the join restricted by
`WHERE i.name LIKE ?` with the pattern `"%" + keyword + "%"` (the
keyword is spliced into the pattern unescaped), rows folded into a
`[]*Item` starting from the nil slice. -/
def searchByKeyword (db : DB) (keyword : String) :
    Except GoErr (GoSlice Item) :=
  .ok (goCollect
    ((joinRows db).filter (fun it => likeMatch (mkLikePat keyword) it.Name.data)))

/-- `itemRepository.Insert`: `INSERT INTO items (name, category_id,
image_name) VALUES (?, ?, ?)` (no constraint on these columns can
fail for Go values: `name` is never NULL, and the foreign key on
`category_id` is not enforced — the test schema never enables SQLite's
`foreign_keys` pragma), then `LastInsertId` (which the sqlite3 driver
always reports for a successful INSERT) is written into `item.ID`
before returning `nil`. -/
def itemInsert (db : DB) (item : Item) : Item × DB :=
  ({ item with ID := db.itemNextId },
   { db with
     items := db.items ++
       [⟨db.itemNextId, item.Name, item.CategoryID, item.ImageName⟩],
     itemNextId := db.itemNextId + 1 })

/-- A sequence of successful `Insert` calls: returns the updated item
values in call order, plus the final database. -/
def runInserts (db : DB) : List Item → List Item × DB
  | [] => ([], db)
  | item :: rest =>
      let p := itemInsert db item
      let q := runInserts p.2 rest
      (p.1 :: q.1, q.2)

/-- The items of a call sequence with the store-assigned identities
attached, starting from identity `s`. -/
def attachIds (s : Nat) : List Item → List Item
  | [] => []
  | item :: rest => { item with ID := s } :: attachIds (s + 1) rest

/-- The rows such a call sequence appends to the `items` table. -/
def rowsFrom (s : Nat) : List Item → List ItemRow
  | [] => []
  | item :: rest =>
      ⟨s, item.Name, item.CategoryID, item.ImageName⟩ :: rowsFrom (s + 1) rest

/-- The identities `[s, s+1, ..., s+n-1]` AUTOINCREMENT hands out. -/
def idRange (s : Nat) : Nat → List Nat
  | 0 => []
  | n + 1 => s :: idRange (s + 1) n

theorem mem_idRange {x : Nat} :
    ∀ {n s : Nat}, x ∈ idRange s n → s ≤ x ∧ x < s + n := by
  intro n
  induction n with
  | zero => intro s h; simp [idRange] at h
  | succ n ih =>
      intro s h
      simp only [idRange, List.mem_cons] at h
      rcases h with h1 | h2
      · omega
      · have := ih h2; omega

theorem idRange_pairwise_lt : ∀ (n s : Nat), (idRange s n).Pairwise (· < ·) := by
  intro n
  induction n with
  | zero => intro s; simp [idRange]
  | succ n ih =>
      intro s
      simp only [idRange]
      rw [List.pairwise_cons]
      exact ⟨fun x hx => by have := mem_idRange hx; omega, ih (s + 1)⟩

theorem attachIds_map_ID :
    ∀ (items : List Item) (s : Nat),
      (attachIds s items).map (fun it => it.ID) = idRange s items.length := by
  intro items
  induction items with
  | nil => intro s; rfl
  | cons item rest ih =>
      intro s
      simp only [attachIds, List.map_cons, List.length_cons, idRange]
      rw [ih (s + 1)]

/-- What a sequence of `Insert` calls computes: the returned items are
the inputs with consecutive fresh identities attached, the table grows
by exactly the corresponding rows, and the counter advances. -/
theorem runInserts_spec :
    ∀ (items : List Item) (db : DB),
      (runInserts db items).1 = attachIds db.itemNextId items
      ∧ (runInserts db items).2.items = db.items ++ rowsFrom db.itemNextId items
      ∧ (runInserts db items).2.itemNextId = db.itemNextId + items.length
      ∧ (runInserts db items).2.categories = db.categories
      ∧ (runInserts db items).2.catNextId = db.catNextId := by
  intro items
  induction items with
  | nil => intro db; simp [runInserts, attachIds, rowsFrom]
  | cons item rest ih =>
      intro db
      obtain ⟨h1, h2, h3, h4, h5⟩ := ih (itemInsert db item).2
      refine ⟨?_, ?_, ?_, ?_, ?_⟩
      · simp only [runInserts, attachIds]
        rw [h1]
        rfl
      · simp only [runInserts]
        rw [h2]
        simp [itemInsert, rowsFrom]
      · simp only [runInserts]
        rw [h3]
        simp only [itemInsert, List.length_cons]
        omega
      · simp only [runInserts]
        rw [h4]
        rfl
      · simp only [runInserts]
        rw [h5]
        rfl

/-! ## Image store (`StoreImage` in `infra.go`) -/

/-- The image directory: file name to byte content. -/
def FS : Type := List (String × List Nat)

/-- Create-or-overwrite a file. -/
def fsSet : FS → String → List Nat → FS
  | [], n, bs => [(n, bs)]
  | (m, old) :: rest, n, bs =>
      if m = n then (n, bs) :: rest else (m, old) :: fsSet rest n bs

/-- Resolve a file name to its bytes. -/
def fsGet : FS → String → Option (List Nat)
  | [], _ => none
  | (m, bs) :: rest, n => if m = n then some bs else fsGet rest n

/-- Embeds `os.WriteFile(name, data, 0644)`: the target is opened with
`O_WRONLY|O_CREATE|O_TRUNC` (truncating any previous content in
place) and the bytes are then written sequentially.  `interrupt =
none` is the completed write; `interrupt = some k` is a write the
medium rejects after `k` bytes (no space, I/O error), which reports an
error and leaves the first `k` bytes under the target name. -/
def osWriteFile (fs : FS) (name : String) (data : List Nat)
    (interrupt : Option Nat) : Except Unit Unit × FS :=
  match interrupt with
  | none => (.ok (), fsSet fs name data)
  | some k => (.error (), fsSet fs name (data.take k))

/-- `StoreImage`: calls `os.WriteFile` directly on the target name and
wraps a failure as `failed to write image file`. -/
def StoreImage (fs : FS) (fileName : String) (image : List Nat)
    (interrupt : Option Nat) : Except GoErr Unit × FS :=
  match osWriteFile fs fileName image interrupt with
  | (.ok _, fs') => (.ok (), fs')
  | (.error _, fs') => (.error .failedToWriteImage, fs')

/-! ## Catalog coordinator -/

/-- The process-wide state the coordinator touches: the relational
store and the image directory. -/
structure AppState where
  db : DB
  images : FS

/-- Modelled from the spec: the Catalog Coordinator / `AddItem`
handler lives in `server.go`, which is not among the provided source
files (only its tests are).  Per §4.4 and §8 of the spec and the
`parseAddItemRequest`/`TestAddItemE2e` expectations: an empty item
name is rejected by required-field validation before any store
mutation; otherwise the category is resolved via `GetOrCreate`, the
image bytes are written (under a name derived from the content), and
only then is the item row inserted; a failure at any step stops the
chain. -/
def addItem (st : AppState) (name categoryName : String)
    (image : List Nat) (imageFileName : String) (interrupt : Option Nat) :
    Except GoErr Item × AppState :=
  if name = "" then
    (.error .invalidRequest, st)
  else
    match getOrCreate st.db categoryName with
    | (.error e, db') => (.error e, { st with db := db' })
    | (.ok cid, db') =>
        match StoreImage st.images imageFileName image interrupt with
        | (.error e, fs') => (.error e, { db := db', images := fs' })
        | (.ok _, fs') =>
            let p := itemInsert db'
              { ID := 0, Name := name, Category := categoryName,
                CategoryID := cid, ImageName := imageFileName }
            (.ok p.1, { db := p.2, images := fs' })

/-! ## General helper lemmas -/

theorem find?_append_of_none {α : Type} {p : α → Bool} {l1 l2 : List α}
    (h : l1.find? p = none) : (l1 ++ l2).find? p = l2.find? p := by
  induction l1 with
  | nil => simp
  | cons x xs ih =>
      rw [List.find?_cons] at h
      cases hx : p x with
      | true => simp [hx] at h
      | false =>
          rw [List.cons_append, List.find?_cons, hx]
          exact ih (by simpa [hx] using h)

theorem countName_eq_one_of_mem (db : DB) (h : uniqNames db)
    {c : Category} (hc : c ∈ db.categories) {n : String} (hn : c.name = n) :
    countName db n = 1 := by
  have hle := uniqNames_countName_le_one db h n
  have hmem : c ∈ db.categories.filter (fun x => x.name == n) :=
    List.mem_filter.mpr ⟨hc, by simp [hn]⟩
  have hpos : 0 < countName db n := by
    unfold countName
    exact List.length_pos.mpr (fun he => by simp [he] at hmem)
  omega

/-- Membership in the SQL join result set. -/
theorem mem_joinRows {db : DB} {it : Item} :
    it ∈ joinRows db ↔
      ∃ r ∈ db.items, ∃ c ∈ db.categories,
        c.id = r.categoryId ∧ it = mkView r c := by
  unfold joinRows
  rw [List.mem_flatMap]
  constructor
  · rintro ⟨r, hr, hit⟩
    rw [List.mem_map] at hit
    obtain ⟨c, hcf, hview⟩ := hit
    rw [List.mem_filter] at hcf
    exact ⟨r, hr, c, hcf.1, by simpa using hcf.2, hview.symm⟩
  · rintro ⟨r, hr, c, hc, hid, hview⟩
    exact ⟨r, hr, List.mem_map.mpr
      ⟨c, List.mem_filter.mpr ⟨hc, by simp [hid]⟩, hview.symm⟩⟩

/-! ## Claim C7 -/

/-- Claim C7: for every non-empty name, two sequential `GetOrCreate`
calls both succeed and return the same identity, and afterwards the
category store contains exactly one row with that name. -/
theorem C7_getOrCreate_idempotent (db : DB) (name : String)
    (h1 : name ≠ "") (h2 : uniqNames db) :
    ∃ id, (getOrCreate db name).1 = .ok id
      ∧ (getOrCreate (getOrCreate db name).2 name).1 = .ok id
      ∧ countName (getOrCreate (getOrCreate db name).2 name).2 name = 1 := by
  unfold getOrCreate getOrCreateRaced
  cases hl : catLookup db.categories name with
  | some id =>
      refine ⟨id, by simp, by simp [hl], ?_⟩
      simp only [hl]
      unfold catLookup at hl
      cases hf : db.categories.find? (fun c => c.name == name) with
      | none => simp [hf] at hl
      | some c =>
          rw [hf] at hl
          have hcn : c.name = name := by
            have := List.find?_some hf
            simpa using this
          exact countName_eq_one_of_mem db h2 (List.mem_of_find?_eq_some hf) hcn
  | none =>
      have hfind : db.categories.find? (fun c => c.name == name) = none := by
        unfold catLookup at hl
        cases hf : db.categories.find? (fun c => c.name == name) with
        | none => rfl
        | some c => simp [hf] at hl
      have hany : db.categories.any (fun c => c.name == name) = false := by
        rw [List.any_eq_false]
        intro c hc
        have := List.find?_eq_none.mp hfind c hc
        simpa using this
      have hins : catInsert db name =
          .ok (db.catNextId,
            { db with
              categories := db.categories ++ [⟨db.catNextId, name⟩],
              catNextId := db.catNextId + 1 }) := by
        unfold catInsert
        rw [hany]
        rfl
      refine ⟨db.catNextId, ?_, ?_, ?_⟩
      · simp [hl, hins]
      · simp only [hl, hins]
        have : catLookup (db.categories ++ [⟨db.catNextId, name⟩]) name
            = some db.catNextId := by
          unfold catLookup
          rw [find?_append_of_none hfind]
          simp [List.find?_cons]
        simp [this]
      · simp only [hl, hins]
        have : catLookup (db.categories ++ [⟨db.catNextId, name⟩]) name
            = some db.catNextId := by
          unfold catLookup
          rw [find?_append_of_none hfind]
          simp [List.find?_cons]
        simp only [this]
        unfold countName
        simp only [List.filter_append]
        have hnilf : db.categories.filter (fun c => c.name == name) = [] := by
          rw [List.filter_eq_nil_iff]
          intro c hc
          have := List.find?_eq_none.mp hfind c hc
          simpa using this
        simp [hnilf]

/-- Instance of claim C7 at a concrete store and name. -/
theorem C7_witness :
    ("phone" ≠ "" ∧ uniqNames ⟨[], 1, [], 1⟩)
    ∧ (∃ id, (getOrCreate ⟨[], 1, [], 1⟩ "phone").1 = .ok id
        ∧ (getOrCreate (getOrCreate ⟨[], 1, [], 1⟩ "phone").2 "phone").1 = .ok id
        ∧ countName (getOrCreate (getOrCreate ⟨[], 1, [], 1⟩ "phone").2 "phone").2
            "phone" = 1) :=
  ⟨⟨by decide, List.Pairwise.nil⟩,
   C7_getOrCreate_idempotent ⟨[], 1, [], 1⟩ "phone" (by decide) List.Pairwise.nil⟩

/-! ## Claim C8 -/

/-- Claim C8: in every reachable state of the category store no two
rows share a name — any interleaved run of `GetOrCreate` calls (each
call's lookup against an arbitrary stale snapshot, its insert against
the current state guarded by the UNIQUE constraint) preserves
name-uniqueness, so each name has at most one row. -/
theorem C8_uniqueness_invariant (db : DB) (calls : List (DB × String))
    (h : uniqNames db) :
    uniqNames (runGetOrCreates db calls)
    ∧ ∀ n, countName (runGetOrCreates db calls) n ≤ 1 := by
  have huniq : uniqNames (runGetOrCreates db calls) := by
    induction calls generalizing db with
    | nil => exact h
    | cons call rest ih =>
        obtain ⟨snap, name⟩ := call
        exact ih _ (getOrCreateRaced_preserves_uniqNames snap db name h)
  exact ⟨huniq, fun n => uniqNames_countName_le_one _ huniq n⟩

/-- Instance of claim C8: two racing first-time `GetOrCreate` calls
for the same new name (both lookups against the initial empty
snapshot) leave a store that still has at most one row per name. -/
theorem C8_witness :
    uniqNames ⟨[], 1, [], 1⟩
    ∧ (uniqNames (runGetOrCreates ⟨[], 1, [], 1⟩
          [(⟨[], 1, [], 1⟩, "widgets"), (⟨[], 1, [], 1⟩, "widgets")])
      ∧ ∀ n, countName (runGetOrCreates ⟨[], 1, [], 1⟩
          [(⟨[], 1, [], 1⟩, "widgets"), (⟨[], 1, [], 1⟩, "widgets")]) n ≤ 1) :=
  ⟨List.Pairwise.nil,
   C8_uniqueness_invariant ⟨[], 1, [], 1⟩
     [(⟨[], 1, [], 1⟩, "widgets"), (⟨[], 1, [], 1⟩, "widgets")]
     List.Pairwise.nil⟩

/-! ## Claim C3 -/

/-- A store that has a category but no items. -/
def noItemsDB : DB := ⟨[⟨1, "phone"⟩], 2, [], 1⟩

/-- Counterexample to claim C3 as stated: on a store with no items,
`List` returns the Go nil slice (`items` is still the zero value of
`var items []*Item` because the scan loop never appends), which is
precisely the null/absent slice value — it serializes to JSON `null`
— rather than a non-nil empty sequence. -/
theorem C3_nil_slice_counterexample :
    itemList noItemsDB = .ok (none : GoSlice Item)
    ∧ goIsNil (goCollect (joinRows noItemsDB)) = true := ⟨rfl, rfl⟩

/-- Claim C3 as amended: when the store contains no items, `List`
returns no error and a slice of length zero — but that slice is the
nil slice (Go's null/absent slice value), not a non-nil empty
sequence. -/
theorem C3_list_empty_store (db : DB) (h : db.items = []) :
    ∃ v, itemList db = .ok v ∧ goLength v = 0 ∧ goIsNil v = true := by
  have hjoin : joinRows db = [] := by
    unfold joinRows
    rw [h]
    rfl
  refine ⟨none, ?_, rfl, rfl⟩
  unfold itemList
  rw [hjoin]
  rfl

/-- Instance of the amended claim C3 at a concrete store. -/
theorem C3_witness :
    noItemsDB.items = []
    ∧ (∃ v, itemList noItemsDB = .ok v ∧ goLength v = 0 ∧ goIsNil v = true) :=
  ⟨rfl, C3_list_empty_store noItemsDB rfl⟩

/-! ## Claim C4 -/

/-- Claim C4: across any sequence of successful `Insert` calls, each
call hands back the input item with `item.ID` set to the identity the
store assigned to the appended row, and (given that the AUTOINCREMENT
counter is beyond every existing row, as SQLite maintains) the
identities assigned across the sequence are strictly increasing and
never collide with any previously assigned identity. -/
theorem C4_insert_ids (db : DB) (items : List Item)
    (hfresh : ∀ r ∈ db.items, r.id < db.itemNextId) :
    ((runInserts db items).1 = attachIds db.itemNextId items)
    ∧ (((runInserts db items).1.map (fun it => it.ID)).Pairwise (· < ·))
    ∧ (∀ out ∈ (runInserts db items).1, ∀ r ∈ db.items, out.ID ≠ r.id)
    ∧ ((runInserts db items).2.items = db.items ++ rowsFrom db.itemNextId items) := by
  obtain ⟨h1, h2, -, -, -⟩ := runInserts_spec items db
  refine ⟨h1, ?_, ?_, h2⟩
  · rw [h1, attachIds_map_ID]
    exact idRange_pairwise_lt items.length db.itemNextId
  · intro out hout r hr
    rw [h1] at hout
    have hmem : out.ID ∈ (attachIds db.itemNextId items).map (fun it => it.ID) :=
      List.mem_map_of_mem _ hout
    rw [attachIds_map_ID] at hmem
    have hge := (mem_idRange hmem).1
    have hlt := hfresh r hr
    omega

/-- Instance of claim C4: two inserts into a store that already holds
a row with identity 1. -/
theorem C4_witness :
    (∀ r ∈ (⟨[⟨1, "phone"⟩], 2, [⟨1, "old", 1, "o.jpg"⟩], 2⟩ : DB).items,
        r.id < (⟨[⟨1, "phone"⟩], 2, [⟨1, "old", 1, "o.jpg"⟩], 2⟩ : DB).itemNextId)
    ∧ (((runInserts ⟨[⟨1, "phone"⟩], 2, [⟨1, "old", 1, "o.jpg"⟩], 2⟩
          [⟨0, "a", "", 1, "a.jpg"⟩, ⟨0, "b", "", 1, "b.jpg"⟩]).1
        = attachIds 2 [⟨0, "a", "", 1, "a.jpg"⟩, ⟨0, "b", "", 1, "b.jpg"⟩])
      ∧ (((runInserts ⟨[⟨1, "phone"⟩], 2, [⟨1, "old", 1, "o.jpg"⟩], 2⟩
            [⟨0, "a", "", 1, "a.jpg"⟩, ⟨0, "b", "", 1, "b.jpg"⟩]).1.map
              (fun it => it.ID)).Pairwise (· < ·))
      ∧ (∀ out ∈ (runInserts ⟨[⟨1, "phone"⟩], 2, [⟨1, "old", 1, "o.jpg"⟩], 2⟩
            [⟨0, "a", "", 1, "a.jpg"⟩, ⟨0, "b", "", 1, "b.jpg"⟩]).1,
          ∀ r ∈ (⟨[⟨1, "phone"⟩], 2, [⟨1, "old", 1, "o.jpg"⟩], 2⟩ : DB).items,
            out.ID ≠ r.id)
      ∧ ((runInserts ⟨[⟨1, "phone"⟩], 2, [⟨1, "old", 1, "o.jpg"⟩], 2⟩
            [⟨0, "a", "", 1, "a.jpg"⟩, ⟨0, "b", "", 1, "b.jpg"⟩]).2.items
          = (⟨[⟨1, "phone"⟩], 2, [⟨1, "old", 1, "o.jpg"⟩], 2⟩ : DB).items
            ++ rowsFrom 2 [⟨0, "a", "", 1, "a.jpg"⟩, ⟨0, "b", "", 1, "b.jpg"⟩])) :=
  ⟨by decide,
   C4_insert_ids ⟨[⟨1, "phone"⟩], 2, [⟨1, "old", 1, "o.jpg"⟩], 2⟩
     [⟨0, "a", "", 1, "a.jpg"⟩, ⟨0, "b", "", 1, "b.jpg"⟩] (by decide)⟩

/-! ## Claim C5 -/

/-- A store with one item named `axxb`. -/
def axxbDB : DB := ⟨[⟨1, "misc"⟩], 2, [⟨1, "axxb", 1, "x.jpg"⟩], 2⟩

/-- Counterexample to claim C5 as stated: for the keyword `a%b`,
`SearchByKeyword` returns the item named `axxb`, whose name does not
contain `a%b` as a substring — the unescaped `%` in the keyword acts
as a wildcard inside the `LIKE` pattern, so the result is not "exactly
the items whose name contains the keyword as a substring". -/
theorem C5_metachar_counterexample :
    searchByKeyword axxbDB "a%b" = .ok (some [⟨1, "axxb", "misc", 1, "x.jpg"⟩])
    ∧ goContains "axxb" "a%b" = false := ⟨rfl, by decide⟩

/-- Claim C5 as amended: `SearchByKeyword(keyword)` never errors and
returns exactly the (joined) items whose name matches the `LIKE`
pattern `%keyword%` under SQLite semantics — `%`/`_` in the keyword
act as wildcards and matching is ASCII-case-insensitive; the empty
keyword matches every item; and for a keyword free of `LIKE`
metacharacters the result is exactly the items whose name contains
the keyword as an ASCII-case-insensitive substring (so no match
yields a length-zero result, not an error). -/
theorem C5_search_semantics (db : DB) (keyword : String) :
    ∃ v, searchByKeyword db keyword = .ok v
      ∧ goToList v = (joinRows db).filter
          (fun it => likeMatch (mkLikePat keyword) it.Name.data)
      ∧ (keyword = "" → goToList v = joinRows db)
      ∧ (likeLiteral keyword →
          goToList v = (joinRows db).filter (fun it => containsCI it.Name keyword)) := by
  refine ⟨goCollect ((joinRows db).filter
      (fun it => likeMatch (mkLikePat keyword) it.Name.data)), rfl,
    goToList_goCollect _, ?_, ?_⟩
  · intro h
    subst h
    rw [goToList_goCollect]
    apply List.filter_eq_self.mpr
    intro it _
    exact likeMatch_empty_keyword it.Name.data
  · intro h
    rw [goToList_goCollect]
    apply List.filter_congr
    intro it _
    exact likeMatch_literal_contains keyword h it.Name

/-- Instance of the amended claim C5 at a concrete store and keyword. -/
theorem C5_witness :
    ∃ v, searchByKeyword axxbDB "" = .ok v
      ∧ goToList v = (joinRows axxbDB).filter
          (fun it => likeMatch (mkLikePat "") it.Name.data)
      ∧ ("" = "" → goToList v = joinRows axxbDB)
      ∧ (likeLiteral "" →
          goToList v = (joinRows axxbDB).filter (fun it => containsCI it.Name "")) :=
  C5_search_semantics axxbDB ""

/-! ## Claim C10 -/

/-- A store with one item named `iphone`. -/
def iphoneDB : DB := ⟨[⟨1, "phone"⟩], 2, [⟨1, "iphone", 1, "p.jpg"⟩], 2⟩

/-- Claim C10: for the keyword `i_hone`, `SearchByKeyword` returns the
item named `iphone` even though `iphone` does not contain `i_hone`
literally as a substring — the keyword is spliced unescaped into the
`LIKE` pattern, so its `_` matches the `p`. -/
theorem C10_unescaped_metachar :
    searchByKeyword iphoneDB "i_hone" = .ok (some [⟨1, "iphone", "phone", 1, "p.jpg"⟩])
    ∧ goContains "iphone" "i_hone" = false := ⟨rfl, by decide⟩

/-! ## Claim C6 -/

/-- A store holding an item row whose `category_id` resolves to no
category — reachable because `Insert` does not validate the foreign
key and the schema never enables SQLite's `foreign_keys` pragma. -/
def danglingDB : DB := ⟨[], 1, [⟨1, "jacket", 99, "j.jpg"⟩], 2⟩

/-- Counterexample to claim C6 as stated: a store contains an item row
with identity 1, yet `Select 1` fails with `ItemNotFound`, because
`Select` reads through an inner join with `categories` and the row's
`category_id` resolves to no category.  So `Select id` does not fail
"exactly when no item row has that identity". -/
theorem C6_dangling_counterexample :
    itemSelect danglingDB 1 = .error .itemNotFound
    ∧ danglingDB.items.any (fun r => r.id == 1) = true := ⟨rfl, by decide⟩

/-- Claim C6 as amended: `GetByID id` fails with `CategoryNotFound`
exactly when no category row has that identity and otherwise returns
the stored record; and, provided every item's `category_id` resolves
to an existing category (referential integrity, which `Select`'s inner
join silently assumes), `Select id` fails with `ItemNotFound` exactly
when no item row has that identity, and otherwise returns the stored
row with the category name denormalized from the referenced
category. -/
theorem C6_point_lookups (db : DB) (id : Nat) :
    ((∀ r ∈ db.items, ∃ c ∈ db.categories, c.id = r.categoryId) →
        (itemSelect db id = .error .itemNotFound ↔ ∀ r ∈ db.items, r.id ≠ id))
    ∧ ((∀ r ∈ db.items, ∃ c ∈ db.categories, c.id = r.categoryId) →
        (∃ r ∈ db.items, r.id = id) →
        ∃ r ∈ db.items, ∃ c ∈ db.categories,
          r.id = id ∧ c.id = r.categoryId ∧ itemSelect db id = .ok (mkView r c))
    ∧ (getByID db id = .error .categoryNotFound ↔ ∀ c ∈ db.categories, c.id ≠ id)
    ∧ ((∃ c ∈ db.categories, c.id = id) →
        ∃ c ∈ db.categories, c.id = id ∧ getByID db id = .ok c) := by
  have hselErr : itemSelect db id = .error .itemNotFound ↔
      (joinRows db).find? (fun it => it.ID == id) = none := by
    unfold itemSelect
    cases hf : (joinRows db).find? (fun it => it.ID == id) <;> simp [hf]
  refine ⟨?_, ?_, ?_, ?_⟩
  · intro hRI
    rw [hselErr, List.find?_eq_none]
    constructor
    · intro hall r hr hrid
      obtain ⟨c, hc, hcid⟩ := hRI r hr
      have hmem : mkView r c ∈ joinRows db :=
        mem_joinRows.mpr ⟨r, hr, c, hc, hcid, rfl⟩
      have := hall _ hmem
      simp [mkView, hrid] at this
    · intro hall it hit
      obtain ⟨r, hr, c, hc, -, hview⟩ := mem_joinRows.mp hit
      subst hview
      simp only [mkView, beq_iff_eq]
      exact fun hEq => hall r hr hEq
  · rintro hRI ⟨r, hr, hrid⟩
    obtain ⟨c, hc, hcid⟩ := hRI r hr
    have hmem : mkView r c ∈ joinRows db :=
      mem_joinRows.mpr ⟨r, hr, c, hc, hcid, rfl⟩
    cases hf : (joinRows db).find? (fun it => it.ID == id) with
    | none =>
        exfalso
        have := List.find?_eq_none.mp hf _ hmem
        simp [mkView, hrid] at this
    | some it =>
        have hitmem := List.mem_of_find?_eq_some hf
        have hitid : it.ID = id := by
          have := List.find?_some hf
          simpa using this
        obtain ⟨r', hr', c', hc', hcid', hview⟩ := mem_joinRows.mp hitmem
        refine ⟨r', hr', c', hc', ?_, hcid', ?_⟩
        · rw [hview] at hitid
          exact hitid
        · unfold itemSelect
          rw [hf, hview]
  · unfold getByID
    cases hf : db.categories.find? (fun c => c.id == id) with
    | none =>
        rw [List.find?_eq_none] at hf
        constructor
        · intro _ c hc hcid
          have := hf c hc
          simp [hcid] at this
        · intro _
          rfl
    | some c =>
        constructor
        · intro h
          exact absurd h (by simp)
        · intro hall
          exfalso
          have hcmem := List.mem_of_find?_eq_some hf
          have hcid : c.id = id := by
            have := List.find?_some hf
            simpa using this
          exact hall c hcmem hcid
  · rintro ⟨c, hc, hcid⟩
    unfold getByID
    cases hf : db.categories.find? (fun x => x.id == id) with
    | none =>
        exfalso
        have := List.find?_eq_none.mp hf c hc
        simp [hcid] at this
    | some c' =>
        have hc'mem := List.mem_of_find?_eq_some hf
        have hc'id : c'.id = id := by
          have := List.find?_some hf
          simpa using this
        exact ⟨c', hc'mem, hc'id, rfl⟩

/-- Instance of the amended claim C6 on a store with one item and its
category present: each implication of the theorem is discharged at the
concrete store. -/
theorem C6_witness :
    ((itemSelect ⟨[⟨1, "phone"⟩], 2, [⟨1, "used iPhone 16e", 1, "u.jpg"⟩], 2⟩ 1
          = .error .itemNotFound
        ↔ ∀ r ∈ (⟨[⟨1, "phone"⟩], 2, [⟨1, "used iPhone 16e", 1, "u.jpg"⟩], 2⟩ : DB).items,
            r.id ≠ 1))
    ∧ (∃ r ∈ (⟨[⟨1, "phone"⟩], 2, [⟨1, "used iPhone 16e", 1, "u.jpg"⟩], 2⟩ : DB).items,
        ∃ c ∈ (⟨[⟨1, "phone"⟩], 2, [⟨1, "used iPhone 16e", 1, "u.jpg"⟩], 2⟩ : DB).categories,
          r.id = 1 ∧ c.id = r.categoryId
          ∧ itemSelect ⟨[⟨1, "phone"⟩], 2, [⟨1, "used iPhone 16e", 1, "u.jpg"⟩], 2⟩ 1
              = .ok (mkView r c))
    ∧ (getByID ⟨[⟨1, "phone"⟩], 2, [⟨1, "used iPhone 16e", 1, "u.jpg"⟩], 2⟩ 1
          = .error .categoryNotFound
        ↔ ∀ c ∈ (⟨[⟨1, "phone"⟩], 2, [⟨1, "used iPhone 16e", 1, "u.jpg"⟩], 2⟩ : DB).categories,
            c.id ≠ 1)
    ∧ (∃ c ∈ (⟨[⟨1, "phone"⟩], 2, [⟨1, "used iPhone 16e", 1, "u.jpg"⟩], 2⟩ : DB).categories,
        c.id = 1
        ∧ getByID ⟨[⟨1, "phone"⟩], 2, [⟨1, "used iPhone 16e", 1, "u.jpg"⟩], 2⟩ 1
            = .ok c) :=
  ⟨(C6_point_lookups ⟨[⟨1, "phone"⟩], 2, [⟨1, "used iPhone 16e", 1, "u.jpg"⟩], 2⟩ 1).1
     (by decide),
   (C6_point_lookups ⟨[⟨1, "phone"⟩], 2, [⟨1, "used iPhone 16e", 1, "u.jpg"⟩], 2⟩ 1).2.1
     (by decide) (by decide),
   (C6_point_lookups ⟨[⟨1, "phone"⟩], 2, [⟨1, "used iPhone 16e", 1, "u.jpg"⟩], 2⟩ 1).2.2.1,
   (C6_point_lookups ⟨[⟨1, "phone"⟩], 2, [⟨1, "used iPhone 16e", 1, "u.jpg"⟩], 2⟩ 1).2.2.2
     (by decide)⟩

/-! ## Claim C1 -/

/-- The category store as a concurrent writer leaves it: by the time
this call's `INSERT` runs, `widgets` already has a row (created
between this call's lookup miss and its insert). -/
def racedDB : DB := ⟨[⟨1, "widgets"⟩], 2, [], 1⟩

/-- Claim C1 evaluated at the failing input: a `GetOrCreate "widgets"`
call whose lookup ran against the empty store (and so missed) and
whose insert runs after another writer created `widgets` gets a
uniqueness-constraint violation — and the code returns the wrapped
`failed to insert category` error to the caller instead of re-reading
the row and returning identity 1 as the claim (and spec §4.1)
require. -/
theorem C1_race_propagates_error :
    (getOrCreateRaced ⟨[], 1, [], 1⟩ racedDB "widgets").1
      = .error GoErr.failedToInsertCategory
    ∧ catLookup racedDB.categories "widgets" = some 1 := ⟨rfl, rfl⟩

/-! ## Claim C2 -/

/-- An image directory already holding `img.jpg` with bytes `[1,2,3]`. -/
def priorFS : FS := [("img.jpg", [1, 2, 3])]

/-- Claim C2 evaluated at the failing input: `StoreImage` writes with
`os.WriteFile`, which truncates the target in place and writes
directly (no write-to-temp-then-rename), so a write of `[9,9,9,9]`
over the existing `img.jpg` that the medium interrupts after one byte
reports the error but leaves `img.jpg` resolvable to the partial
bytes `[9]` — neither the prior content nor the new content. -/
theorem C2_partial_write_visible :
    (StoreImage priorFS "img.jpg" [9, 9, 9, 9] (some 1)).1
      = .error GoErr.failedToWriteImage
    ∧ fsGet (StoreImage priorFS "img.jpg" [9, 9, 9, 9] (some 1)).2 "img.jpg"
      = some [9]
    ∧ some [9] ≠ some ([1, 2, 3] : List Nat)
    ∧ some [9] ≠ some ([9, 9, 9, 9] : List Nat) :=
  ⟨rfl, rfl, by decide, by decide⟩

/-! ## Claim C9 -/

/-- Claim C9: an `AddItem` call whose item name is empty is rejected
by required-field validation before any store mutation: the result is
an error and the category table, the item table and the image
directory are all unchanged.  (The coordinator is modelled from the
spec, `server.go` not being among the sources.) -/
theorem C9_empty_name_rejected (st : AppState) (name categoryName : String)
    (image : List Nat) (fileName : String) (interrupt : Option Nat)
    (h : name = "") :
    (addItem st name categoryName image fileName interrupt).1
      = .error GoErr.invalidRequest
    ∧ (addItem st name categoryName image fileName interrupt).2.db.categories
      = st.db.categories
    ∧ (addItem st name categoryName image fileName interrupt).2.db.items
      = st.db.items
    ∧ (addItem st name categoryName image fileName interrupt).2.images
      = st.images := by
  subst h
  simp [addItem]

/-- Instance of claim C9 at a concrete state and request. -/
theorem C9_witness :
    ("" = ("" : String))
    ∧ ((addItem ⟨⟨[], 1, [], 1⟩, []⟩ "" "phone" [7, 7] "t.jpg" none).1
        = .error GoErr.invalidRequest
      ∧ (addItem ⟨⟨[], 1, [], 1⟩, []⟩ "" "phone" [7, 7] "t.jpg" none).2.db.categories
        = (⟨⟨[], 1, [], 1⟩, []⟩ : AppState).db.categories
      ∧ (addItem ⟨⟨[], 1, [], 1⟩, []⟩ "" "phone" [7, 7] "t.jpg" none).2.db.items
        = (⟨⟨[], 1, [], 1⟩, []⟩ : AppState).db.items
      ∧ (addItem ⟨⟨[], 1, [], 1⟩, []⟩ "" "phone" [7, 7] "t.jpg" none).2.images
        = (⟨⟨[], 1, [], 1⟩, []⟩ : AppState).images) :=
  ⟨rfl, C9_empty_name_rejected ⟨⟨[], 1, [], 1⟩, []⟩ "" "phone" [7, 7] "t.jpg" none rfl⟩

end Mercari
